import Mathlib

/-!
Verification of the kegboard daemon message pipeline
(`pykeg/bin/kegboard_daemon.py`).

The embedding models:
  - `DuplicateSuppressingCache` and its `ShouldSuppress` decision
    (two dictionaries keyed by cache key, a `timedelta` window, and the
    wall clock passed in explicitly as an integer number of seconds);
  - the manager thread's `_HandleDeviceMessage` classification and its
    `run` loop with the `ClientException` catch clause (the network
    client is modelled by a function saying which send calls raise);
  - the FIFO queue hand-off between the device I/O thread
    (`PostDeviceMessage`) and the manager loop (`Queue.get`).

Times are integers (seconds); `datetime.now()` becomes an explicit
`now` argument at each call, and `now - last_time` is integer
subtraction, matching `timedelta` comparison semantics.
-/

namespace KegboardDaemon

/-- Default of the `cache_seconds` flag: `gflags.DEFINE_integer('cache_seconds', 60, ...)`.
This is the window used when no configuration is supplied. -/
def FLAGS_cache_seconds : Int := 60

/-- The state of `DuplicateSuppressingCache`: the window `_max_delta`
(seconds), and the two dictionaries `_last_reading_time` and
`_last_reading_value`, modelled as functions to `Option`. -/
structure DuplicateSuppressingCache (K V : Type) where
  maxDelta : Int
  lastReadingTime : K → Option Int
  lastReadingValue : K → Option V

/-- Constructor `__init__(self, max_age)`: `_max_delta = timedelta(seconds=max_age)`,
both dictionaries empty. -/
def DuplicateSuppressingCache.create (K V : Type) (maxAge : Int) :
    DuplicateSuppressingCache K V :=
  { maxDelta := maxAge
    lastReadingTime := fun _ => none
    lastReadingValue := fun _ => none }

/-- Constructor call with the `max_age` argument omitted, as in
`KegboardManagerThread.__init__`: the default is `FLAGS.cache_seconds`. -/
def DuplicateSuppressingCache.createDefault (K V : Type) :
    DuplicateSuppressingCache K V :=
  DuplicateSuppressingCache.create K V FLAGS_cache_seconds

/-- The pair of dictionary assignments
`self._last_reading_time[key] = now; self._last_reading_value[key] = value`. -/
def recordReading [DecidableEq K] (c : DuplicateSuppressingCache K V)
    (key : K) (value : V) (now : Int) : DuplicateSuppressingCache K V :=
  { c with
    lastReadingTime := fun k => if k = key then some now else c.lastReadingTime k
    lastReadingValue := fun k => if k = key then some value else c.lastReadingValue k }

/-- Method `DuplicateSuppressingCache.ShouldSuppress(self, key, value)`, with
the wall clock `now` passed explicitly.  Returns the boolean result together
with the cache state after the call.  `value != last_value` compares the
incoming value against the optional stored value, as Python compares an
`int`/`float` against a possibly-`None` dictionary lookup. -/
def ShouldSuppress [DecidableEq K] [DecidableEq V]
    (c : DuplicateSuppressingCache K V) (now : Int) (key : K) (value : V) :
    Bool × DuplicateSuppressingCache K V :=
  match c.lastReadingTime key with
  | none => (false, recordReading c key value now)
  | some last_time =>
    if some value ≠ c.lastReadingValue key then
      (false, recordReading c key value now)
    else
      if now - last_time < c.maxDelta then
        (true, c)
      else
        (false, recordReading c key value now)

/-- Cache keys as built by `_HandleDeviceMessage`: the tuples
`('meter', meter_name)` and `('thermo', sensor_name)`. -/
abbrev CacheKey := String × String

/-- The two recognized decoder message variants
(`kegboard.MeterStatusMessage`, `kegboard.TemperatureReadingMessage`),
plus a variant standing for any other message produced by the decoder,
which `_HandleDeviceMessage` does not test for. -/
inductive DeviceMessage (V : Type) where
  | MeterStatusMessage (meter_name : String) (meter_reading : V)
  | TemperatureReadingMessage (sensor_name : String) (sensor_reading : V)
  | other (raw : Nat)
deriving DecidableEq

/-- An outbound call on the kegnet client. -/
inductive SendCall (V : Type) where
  | SendMeterUpdate (name : String) (value : V)
  | SendThermoUpdate (name : String) (value : V)
deriving DecidableEq

/-- Method `KegboardManagerThread._HandleDeviceMessage(self, device_name, msg)`:
classify the message by variant, consult the cache, and emit the outbound
client call when not suppressed.  Returns the cache state after the call
and the list of send calls issued (at most one). -/
def HandleDeviceMessage [DecidableEq V] (device_name : String)
    (msg : DeviceMessage V) (c : DuplicateSuppressingCache CacheKey V)
    (now : Int) :
    DuplicateSuppressingCache CacheKey V × List (SendCall V) :=
  match msg with
  | DeviceMessage.MeterStatusMessage meter_name curr_val =>
    let r := ShouldSuppress c now ("meter", meter_name) curr_val
    (r.2, if r.1 then [] else [SendCall.SendMeterUpdate meter_name curr_val])
  | DeviceMessage.TemperatureReadingMessage sensor_name sensor_value =>
    let r := ShouldSuppress c now ("thermo", sensor_name) sensor_value
    (r.2, if r.1 then [] else [SendCall.SendThermoUpdate sensor_name sensor_value])
  | DeviceMessage.other _ => (c, [])

/-- Helper lemmas about the branches of `ShouldSuppress`. -/
theorem ShouldSuppress_lastValue_self [DecidableEq K] [DecidableEq V]
    (c : DuplicateSuppressingCache K V) (now : Int) (key : K) (value : V) :
    (ShouldSuppress c now key value).2.lastReadingValue key = some value := by
  unfold ShouldSuppress
  cases hlt : c.lastReadingTime key with
  | none => simp [recordReading]
  | some lt =>
    by_cases hv : some value ≠ c.lastReadingValue key
    · simp [hv, recordReading]
    · push_neg at hv
      by_cases hw : now - lt < c.maxDelta
      · simp [hv, hw]
      · simp [hv, hw, recordReading]

theorem ShouldSuppress_lastTime_self_isSome [DecidableEq K] [DecidableEq V]
    (c : DuplicateSuppressingCache K V) (now : Int) (key : K) (value : V) :
    ((ShouldSuppress c now key value).2.lastReadingTime key).isSome := by
  unfold ShouldSuppress
  cases hlt : c.lastReadingTime key with
  | none => simp [recordReading]
  | some lt =>
    by_cases hv : some value ≠ c.lastReadingValue key
    · simp [hv, recordReading]
    · by_cases hw : now - lt < c.maxDelta
      · simp [hv, hw, hlt]
      · simp [hv, hw, recordReading]

/-- C1: a repeated, unchanged value inside the window is suppressed, and
the call leaves the whole cache state — in particular the stored
timestamp and value for the key — unchanged. -/
theorem suppress_within_window [DecidableEq K] [DecidableEq V]
    (c : DuplicateSuppressingCache K V) (now t : Int) (key : K) (value : V)
    (ht : c.lastReadingTime key = some t)
    (hv : c.lastReadingValue key = some value)
    (hw : now - t < c.maxDelta) :
    ShouldSuppress c now key value = (true, c) := by
  unfold ShouldSuppress
  rw [ht, hv]
  simp [hw]

/-- Witness for C1 at a concrete cache and clock. -/
theorem suppress_within_window_witness :
    (let c := recordReading
        (DuplicateSuppressingCache.create CacheKey Int 60) ("meter", "flow0") 100 0
     ShouldSuppress c 10 ("meter", "flow0") 100 = (true, c)) := by
  exact suppress_within_window _ 10 0 ("meter", "flow0") 100 (by rfl) (by rfl) (by decide)

/-- C2: after a call with `v1`, a call for the same key with a different
value `v2` always forwards (returns `false`), regardless of elapsed time,
and rewrites the stored entry to `(v2, now)`. -/
theorem change_always_forwards [DecidableEq K] [DecidableEq V]
    (c : DuplicateSuppressingCache K V) (t1 t2 : Int) (key : K) (v1 v2 : V)
    (hne : v1 ≠ v2) :
    ((ShouldSuppress (ShouldSuppress c t1 key v1).2 t2 key v2).1 = false)
    ∧ ((ShouldSuppress (ShouldSuppress c t1 key v1).2 t2 key v2).2.lastReadingValue key = some v2)
    ∧ ((ShouldSuppress (ShouldSuppress c t1 key v1).2 t2 key v2).2.lastReadingTime key = some t2) := by
  set c1 := (ShouldSuppress c t1 key v1).2 with hc1
  have hval : c1.lastReadingValue key = some v1 :=
    ShouldSuppress_lastValue_self c t1 key v1
  have htime : (c1.lastReadingTime key).isSome :=
    ShouldSuppress_lastTime_self_isSome c t1 key v1
  obtain ⟨u, hu⟩ := Option.isSome_iff_exists.mp htime
  have hdiff : some v2 ≠ c1.lastReadingValue key := by
    rw [hval]
    intro h
    exact hne (Option.some.inj h).symm
  unfold ShouldSuppress
  rw [hu]
  simp [hdiff, recordReading]

/-- Witness for C2 at a concrete cache, key and value pair. -/
theorem change_always_forwards_witness :
    ((ShouldSuppress (ShouldSuppress (DuplicateSuppressingCache.create CacheKey Int 60) 0 ("meter", "flow0") 100).2 0 ("meter", "flow0") 105).1 = false)
    ∧ ((ShouldSuppress (ShouldSuppress (DuplicateSuppressingCache.create CacheKey Int 60) 0 ("meter", "flow0") 100).2 0 ("meter", "flow0") 105).2.lastReadingValue ("meter", "flow0") = some 105)
    ∧ ((ShouldSuppress (ShouldSuppress (DuplicateSuppressingCache.create CacheKey Int 60) 0 ("meter", "flow0") 100).2 0 ("meter", "flow0") 105).2.lastReadingTime ("meter", "flow0") = some 0) :=
  change_always_forwards _ 0 0 ("meter", "flow0") 100 105 (by decide)

/-- C7: at the exact window boundary (`now - last_time = max_delta`) the
strict comparison fails, so an unchanged value is forwarded. -/
theorem boundary_elapsed_forwards [DecidableEq K] [DecidableEq V]
    (c : DuplicateSuppressingCache K V) (now t : Int) (key : K) (value : V)
    (ht : c.lastReadingTime key = some t)
    (hv : c.lastReadingValue key = some value)
    (hb : now - t = c.maxDelta) :
    (ShouldSuppress c now key value).1 = false := by
  unfold ShouldSuppress
  rw [ht, hv]
  simp [hb]

/-- Witness for C7: window 60, stored at t = 0, same value at t = 60. -/
theorem boundary_elapsed_forwards_witness :
    (ShouldSuppress
      (recordReading (DuplicateSuppressingCache.create CacheKey Int 60) ("meter", "flow0") 100 0)
      60 ("meter", "flow0") 100).1 = false :=
  boundary_elapsed_forwards _ 60 0 ("meter", "flow0") 100 (by rfl) (by rfl) (by decide)

/-- A sequence of `ShouldSuppress` calls, each given as
`(now, key, value)`: the final cache state. -/
def runCalls [DecidableEq K] [DecidableEq V]
    (c : DuplicateSuppressingCache K V) :
    List (Int × K × V) → DuplicateSuppressingCache K V
  | [] => c
  | (t, k, v) :: rest => runCalls (ShouldSuppress c t k v).2 rest

/-- A sequence of `ShouldSuppress` calls: the list of boolean results, in
call order. -/
def suppressTrace [DecidableEq K] [DecidableEq V]
    (c : DuplicateSuppressingCache K V) :
    List (Int × K × V) → List Bool
  | [] => []
  | (t, k, v) :: rest =>
    (ShouldSuppress c t k v).1 :: suppressTrace (ShouldSuppress c t k v).2 rest

/-- A `ShouldSuppress` call leaves `_max_delta` unchanged. -/
theorem ShouldSuppress_maxDelta [DecidableEq K] [DecidableEq V]
    (c : DuplicateSuppressingCache K V) (now : Int) (key : K) (value : V) :
    (ShouldSuppress c now key value).2.maxDelta = c.maxDelta := by
  unfold ShouldSuppress
  cases hlt : c.lastReadingTime key with
  | none => rfl
  | some lt =>
    by_cases hv : some value ≠ c.lastReadingValue key
    · simp [hv, recordReading]
    · by_cases hw : now - lt < c.maxDelta
      · simp [hv, hw]
      · simp [hv, hw, recordReading]

/-- After a `ShouldSuppress` call, any stored timestamp is either the
clock value of that call or was already stored before it. -/
theorem ShouldSuppress_lastTime_cases [DecidableEq K] [DecidableEq V]
    (c : DuplicateSuppressingCache K V) (now : Int) (k : K) (v : V) (key : K) :
    (ShouldSuppress c now k v).2.lastReadingTime key = some now
    ∨ (ShouldSuppress c now k v).2.lastReadingTime key = c.lastReadingTime key := by
  unfold ShouldSuppress
  cases hlt : c.lastReadingTime k with
  | none =>
    by_cases hk : key = k
    · simp [recordReading, hk]
    · simp [recordReading, hk]
  | some lt =>
    by_cases hv : some v ≠ c.lastReadingValue k
    · by_cases hk : key = k
      · simp [hv, recordReading, hk]
      · simp [hv, recordReading, hk]
    · by_cases hw : now - lt < c.maxDelta
      · simp [hv, hw]
      · by_cases hk : key = k
        · simp [hv, hw, recordReading, hk]
        · simp [hv, hw, recordReading, hk]

/-- All stored timestamps of `c` are at most `t0`. -/
def timesBounded (c : DuplicateSuppressingCache K V) (t0 : Int) : Prop :=
  ∀ k u, c.lastReadingTime k = some u → u ≤ t0

theorem timesBounded_step [DecidableEq K] [DecidableEq V]
    (c : DuplicateSuppressingCache K V) (t0 now : Int) (k : K) (v : V)
    (hb : timesBounded c t0) (hle : t0 ≤ now) :
    timesBounded (ShouldSuppress c now k v).2 now := by
  intro key u hu
  rcases ShouldSuppress_lastTime_cases c now k v key with h | h
  · rw [h] at hu
    exact le_of_eq (Option.some.inj hu).symm
  · rw [h] at hu
    exact le_trans (hb key u hu) hle

/-- With a zero window and a non-decreasing clock, a same-value call is
never suppressed: the elapsed time is never strictly negative.  Generic
helper over any cache whose window is zero and whose stored timestamps
are bounded by the clock. -/
theorem suppressTrace_zero_window [DecidableEq K] [DecidableEq V]
    (calls : List (Int × K × V)) :
    ∀ (c : DuplicateSuppressingCache K V) (t0 : Int), c.maxDelta = 0 →
      timesBounded c t0 →
      List.Chain (· ≤ ·) t0 (calls.map Prod.fst) →
      suppressTrace c calls = List.replicate calls.length false := by
  induction calls with
  | nil => intro c t0 _ _ _; rfl
  | cons hd rest ih =>
    intro c t0 hmd hb hchain
    obtain ⟨t, k, v⟩ := hd
    rw [List.map_cons] at hchain
    cases hchain with
    | cons hle hchain' =>
      have hfirst : (ShouldSuppress c t k v).1 = false := by
        unfold ShouldSuppress
        cases hlt : c.lastReadingTime k with
        | none => rfl
        | some lt =>
          by_cases hv : some v ≠ c.lastReadingValue k
          · simp [hv]
          · have hlt' : lt ≤ t0 := hb k lt hlt
            have : ¬(t - lt < c.maxDelta) := by
              rw [hmd]
              omega
            simp [hv, this]
      have hrest : suppressTrace (ShouldSuppress c t k v).2 rest
          = List.replicate rest.length false := by
        refine ih (ShouldSuppress c t k v).2 t ?_ ?_ hchain'
        · rw [ShouldSuppress_maxDelta, hmd]
        · exact timesBounded_step c t0 t k v hb hle
      simp [suppressTrace, hfirst, hrest, List.replicate]

/-- C3 (amended): with a window of zero, no call is ever suppressed —
in particular every call after the first for a key returns `false` —
provided the clock is non-decreasing across calls. -/
theorem zero_window_never_suppresses [DecidableEq K] [DecidableEq V]
    (calls : List (Int × K × V))
    (hchain : List.Chain' (· ≤ ·) (calls.map Prod.fst)) :
    suppressTrace (DuplicateSuppressingCache.create K V 0) calls
      = List.replicate calls.length false := by
  cases calls with
  | nil => rfl
  | cons hd rest =>
    refine suppressTrace_zero_window (hd :: rest)
      (DuplicateSuppressingCache.create K V 0) hd.1 rfl ?_ ?_
    · intro k u hu
      cases hu
    · rw [List.map_cons] at hchain ⊢
      exact List.Chain.cons le_rfl hchain

/-- Witness for C3's theorem at a concrete call sequence. -/
theorem zero_window_never_suppresses_witness :
    List.Chain' (· ≤ ·)
      (([(0, (("meter", "flow0") : CacheKey), (100 : Int)),
         (0, ("meter", "flow0"), 100),
         (5, ("meter", "flow0"), 100)]).map Prod.fst)
    ∧ suppressTrace (DuplicateSuppressingCache.create CacheKey Int 0)
        [(0, ("meter", "flow0"), 100), (0, ("meter", "flow0"), 100),
         (5, ("meter", "flow0"), 100)]
      = List.replicate 3 false :=
  ⟨List.Chain.cons le_rfl (List.Chain.cons (by norm_num) List.Chain.nil),
   zero_window_never_suppresses _
     (List.Chain.cons le_rfl (List.Chain.cons (by norm_num) List.Chain.nil))⟩

/-- C3, counterexample to the claim as stated: when the window is
*absent* (not configured), the constructor default is
`FLAGS.cache_seconds = 60`, not zero, so suppression is *not* disabled:
with the default cache, a repeated value ten seconds later is
suppressed. -/
theorem absent_window_still_suppresses :
    FLAGS_cache_seconds = 60
    ∧ (ShouldSuppress
        (ShouldSuppress (DuplicateSuppressingCache.createDefault CacheKey Int)
          0 ("meter", "flow0") (100 : Int)).2
        10 ("meter", "flow0") 100).1 = true :=
  ⟨rfl, by decide⟩

/-- C8: across any sequence of calls with a non-decreasing clock, the
stored `last_seen_timestamp` of every key is monotonically
non-decreasing: any entry written is written with the current clock
value, never with an older one. -/
theorem last_seen_timestamp_monotone [DecidableEq K] [DecidableEq V]
    (calls : List (Int × K × V)) :
    ∀ (c : DuplicateSuppressingCache K V) (t0 : Int) (key : K) (u u' : Int),
      timesBounded c t0 →
      List.Chain (· ≤ ·) t0 (calls.map Prod.fst) →
      c.lastReadingTime key = some u →
      (runCalls c calls).lastReadingTime key = some u' →
      u ≤ u' := by
  induction calls with
  | nil =>
    intro c t0 key u u' _ _ hu hu'
    rw [runCalls] at hu'
    rw [hu] at hu'
    exact le_of_eq (Option.some.inj hu')
  | cons hd rest ih =>
    intro c t0 key u u' hb hchain hu hu'
    obtain ⟨t, k, v⟩ := hd
    rw [List.map_cons] at hchain
    cases hchain with
    | cons hle hchain' =>
      rw [runCalls] at hu'
      have hb' : timesBounded (ShouldSuppress c t k v).2 t :=
        timesBounded_step c t0 t k v hb hle
      rcases ShouldSuppress_lastTime_cases c t k v key with h | h
      · have h1 : u ≤ t := le_trans (hb key u hu) hle
        have h2 : t ≤ u' := ih (ShouldSuppress c t k v).2 t key t u' hb' hchain' h hu'
        exact le_trans h1 h2
      · rw [hu] at h
        exact ih (ShouldSuppress c t k v).2 t key u u' hb' hchain' h hu'

/-- Witness for C8 at a concrete cache and call sequence: stored time 0,
one suppressed call at t = 10 keeps the stored timestamp at 0. -/
theorem last_seen_timestamp_monotone_witness : (0 : Int) ≤ 0 :=
  last_seen_timestamp_monotone
    [(10, (("meter", "flow0") : CacheKey), (100 : Int))]
    (recordReading (DuplicateSuppressingCache.create CacheKey Int 60)
      ("meter", "flow0") 100 0)
    0 ("meter", "flow0") 0 0
    (by
      intro k w hw
      simp only [recordReading, DuplicateSuppressingCache.create] at hw
      by_cases hk : k = ("meter", "flow0")
      · rw [if_pos hk] at hw
        exact le_of_eq (Option.some.inj hw).symm
      · rw [if_neg hk] at hw
        cases hw)
    (List.Chain.cons (by norm_num) List.Chain.nil) (by rfl) (by decide)

/-- C6: a message of any unrecognized variant is handled as a no-op: no
send call, no error, and the cache is returned unchanged. -/
theorem unrecognized_message_ignored [DecidableEq V] (device_name : String)
    (raw : Nat) (c : DuplicateSuppressingCache CacheKey V) (now : Int) :
    HandleDeviceMessage device_name (DeviceMessage.other raw) c now = (c, []) :=
  rfl

/-- C5: a meter reading is forwarded via `SendMeterUpdate` exactly when
`ShouldSuppress (('meter', name), value)` is false, a thermo reading via
`SendThermoUpdate` exactly when `ShouldSuppress (('thermo', name), value)`
is false, and a suppressed reading produces no send call. -/
theorem classification_forwards_iff_not_suppressed [DecidableEq V]
    (device_name : String) (c : DuplicateSuppressingCache CacheKey V)
    (now : Int) (n : String) (v : V) (s : String) (w : V) :
    ((HandleDeviceMessage device_name (DeviceMessage.MeterStatusMessage n v) c now).2
      = if (ShouldSuppress c now ("meter", n) v).1 then []
        else [SendCall.SendMeterUpdate n v])
    ∧ ((HandleDeviceMessage device_name (DeviceMessage.TemperatureReadingMessage s w) c now).2
      = if (ShouldSuppress c now ("thermo", s) w).1 then []
        else [SendCall.SendThermoUpdate s w]) :=
  ⟨rfl, rfl⟩

/-- C10: `_HandleDeviceMessage` never inspects `device_name`: two runs
differing only in the source device name produce identical cache state
and identical send calls. -/
theorem handle_independent_of_device_name [DecidableEq V]
    (d1 d2 : String) (msg : DeviceMessage V)
    (c : DuplicateSuppressingCache CacheKey V) (now : Int) :
    HandleDeviceMessage d1 msg c now = HandleDeviceMessage d2 msg c now := by
  cases msg <;> rfl

/-- State accumulated by the manager thread's `run` loop: the cache it
owns, plus observation traces — the messages dequeued and handled, the
send calls attempted on the client, the send calls that completed
without raising `ClientException`, and the number of warning log lines
emitted by the catch clause. -/
structure ManagerState (V : Type) where
  cache : DuplicateSuppressingCache CacheKey V
  handled : List (DeviceMessage V)
  attempted : List (SendCall V)
  sent : List (SendCall V)
  warnings : Nat

/-- The manager state as set up by `KegboardManagerThread.__init__`:
a `DuplicateSuppressingCache()` built with the flag default, and nothing
processed yet. -/
def ManagerState.initial (V : Type) : ManagerState V :=
  { cache := DuplicateSuppressingCache.createDefault CacheKey V
    handled := []
    attempted := []
    sent := []
    warnings := 0 }

/-- One iteration of the manager `run` loop body on a dequeued item
`(now, device_name, msg)`: `_HandleDeviceMessage` is called inside a
`try`; the client is modelled by `fails`, saying which send calls raise
`ClientException`.  A raised `ClientException` is caught and logged as a
warning (`warnings + 1`); the cache update made by `ShouldSuppress`
before the send persists either way. -/
def managerStep [DecidableEq V] (fails : SendCall V → Bool)
    (st : ManagerState V) (item : Int × String × DeviceMessage V) :
    ManagerState V :=
  let r := HandleDeviceMessage item.2.1 item.2.2 st.cache item.1
  { cache := r.1
    handled := st.handled ++ [item.2.2]
    attempted := st.attempted ++ r.2
    sent := st.sent ++ r.2.filter (fun call => ! fails call)
    warnings := st.warnings + r.2.countP fails }

/-- The manager `run` loop over a finite list of dequeued items. -/
def managerRun [DecidableEq V] (fails : SendCall V → Bool)
    (st : ManagerState V) (items : List (Int × String × DeviceMessage V)) :
    ManagerState V :=
  items.foldl (managerStep fails) st

/-- The cache state after handling `items`, independent of the client. -/
def cacheAfter [DecidableEq V] (c : DuplicateSuppressingCache CacheKey V) :
    List (Int × String × DeviceMessage V) → DuplicateSuppressingCache CacheKey V
  | [] => c
  | item :: rest => cacheAfter (HandleDeviceMessage item.2.1 item.2.2 c item.1).1 rest

/-- The send calls attempted while handling `items`, independent of the
client: suppression depends only on the cache, which is updated before
any send. -/
def attemptsAfter [DecidableEq V] (c : DuplicateSuppressingCache CacheKey V) :
    List (Int × String × DeviceMessage V) → List (SendCall V)
  | [] => []
  | item :: rest =>
    (HandleDeviceMessage item.2.1 item.2.2 c item.1).2
      ++ attemptsAfter (HandleDeviceMessage item.2.1 item.2.2 c item.1).1 rest

/-- Full characterization of the manager loop: every dequeued message is
handled, the attempted sends and the cache evolution are functions of the
cache and the items alone, each failing send adds one warning, and the
successful sends are the attempted ones the client did not fail. -/
theorem managerRun_spec [DecidableEq V] (fails : SendCall V → Bool)
    (items : List (Int × String × DeviceMessage V)) :
    ∀ st : ManagerState V,
      managerRun fails st items =
        { cache := cacheAfter st.cache items
          handled := st.handled ++ items.map (fun item => item.2.2)
          attempted := st.attempted ++ attemptsAfter st.cache items
          sent := st.sent ++ (attemptsAfter st.cache items).filter (fun call => ! fails call)
          warnings := st.warnings + (attemptsAfter st.cache items).countP fails } := by
  induction items with
  | nil =>
    intro st
    simp [managerRun, cacheAfter, attemptsAfter]
  | cons item rest ih =>
    intro st
    have hstep : managerRun fails st (item :: rest)
        = managerRun fails (managerStep fails st item) rest := rfl
    rw [hstep, ih]
    simp [managerStep, cacheAfter, attemptsAfter, List.filter_append,
      List.countP_append]
    omega

/-- C4: client-side send failures are isolated.  For any pattern of
`ClientException`-raising sends, the manager loop handles every dequeued
message (a failure on message k never prevents message k+1 from being
dequeued and processed), the attempted sends and final cache are exactly
those of a run with a never-failing client, and each failing send is
logged as one warning rather than escaping the loop. -/
theorem send_failure_isolation [DecidableEq V] (fails : SendCall V → Bool)
    (st : ManagerState V) (items : List (Int × String × DeviceMessage V)) :
    ((managerRun fails st items).handled
        = st.handled ++ items.map (fun item => item.2.2))
    ∧ ((managerRun fails st items).attempted
        = (managerRun (fun _ => false) st items).attempted)
    ∧ ((managerRun fails st items).cache
        = (managerRun (fun _ => false) st items).cache)
    ∧ ((managerRun fails st items).warnings
        = st.warnings + (attemptsAfter st.cache items).countP fails)
    ∧ ((managerRun fails st items).sent
        = st.sent ++ (attemptsAfter st.cache items).filter (fun call => ! fails call)) := by
  rw [managerRun_spec fails items st, managerRun_spec (fun _ => false) items st]
  exact ⟨rfl, rfl, rfl, rfl, rfl⟩

/-- State of the queue hand-off between the device I/O thread and the
manager thread: the messages the I/O loop has yet to read from the
device (in device order), the contents of the FIFO `_message_queue`, and
the messages the manager has dequeued so far (in dequeue order). -/
structure QueueSystem (α : Type) where
  pending : List α
  queued : List α
  delivered : List α

/-- The two events that move messages: `PostDeviceMessage` (the I/O loop
puts the next device message at the back of the queue) and a successful
`Queue.get` in the manager loop (the front of the queue is dequeued).  A
`Queue.get` timeout moves nothing and so is not a step. -/
inductive QueueStep (α : Type) : QueueSystem α → QueueSystem α → Prop where
  | post (m : α) (p q d : List α) :
      QueueStep α ⟨m :: p, q, d⟩ ⟨p, q ++ [m], d⟩
  | get (m : α) (p q d : List α) :
      QueueStep α ⟨p, m :: q, d⟩ ⟨p, q, d ++ [m]⟩

/-- C9: FIFO preservation.  From an initial state where the device will
produce the messages `ms` in order, every reachable state partitions
`ms` into delivered, queued and pending segments in order; in
particular the manager observes messages in exactly the device order —
the delivered sequence is always a prefix of `ms`, with no reordering. -/
theorem fifo_preservation (α : Type) (ms : List α) (s : QueueSystem α)
    (h : Relation.ReflTransGen (QueueStep α) ⟨ms, [], []⟩ s) :
    (s.delivered ++ s.queued ++ s.pending = ms) ∧ s.delivered <+: ms := by
  have hinv : s.delivered ++ s.queued ++ s.pending = ms := by
    induction h with
    | refl => simp
    | tail _ hstep ih =>
      cases hstep with
      | post m p q d =>
        simp only at ih ⊢
        rw [← ih]
        simp
      | get m p q d =>
        simp only at ih ⊢
        rw [← ih]
        simp
  refine ⟨hinv, ⟨s.queued ++ s.pending, ?_⟩⟩
  rw [← List.append_assoc]
  exact hinv

/-- Witness for C9: the concrete run post 1, post 2, get, get delivers
`[1, 2]` in order. -/
theorem fifo_preservation_witness :
    ((QueueSystem.mk ([] : List Nat) [] [1, 2]).delivered
        ++ (QueueSystem.mk ([] : List Nat) [] [1, 2]).queued
        ++ (QueueSystem.mk ([] : List Nat) [] [1, 2]).pending = [1, 2])
    ∧ (QueueSystem.mk ([] : List Nat) [] [1, 2]).delivered <+: [1, 2] :=
  fifo_preservation Nat [1, 2] (QueueSystem.mk [] [] [1, 2])
    (Relation.ReflTransGen.head (QueueStep.post 1 [2] [] [])
      (Relation.ReflTransGen.head (QueueStep.post 2 [] [1] [])
        (Relation.ReflTransGen.head (QueueStep.get 1 [] [2] [])
          (Relation.ReflTransGen.head (QueueStep.get 2 [] [] [1])
            Relation.ReflTransGen.refl))))

end KegboardDaemon
